import Mathlib

/-!
Verification of the `bayessb.report` aggregation/rendering pipeline
(`src/bayessb/report/__init__.py` and `src/bayessb/report.py`).

The Python code is shallowly embedded: the process-wide `reporter_dict` is
explicit state threaded through the registration decorator, fallible
operations (unpickling a chain file, a reporter raising, `dict`/`list`
lookups that can raise `KeyError`/`IndexError`) return `Except String`,
and Python's heterogeneous cell values become the inductive types `Value`
(scalar reporter values) and `Cell` (grid cells: header label or Result).
-/

namespace BayesSB

/-! ## Chain objects (read contract of the persisted chain-run format) -/

/-- Configuration options carried by a loaded MCMC chain-run object.  The
report code reads only `options.nsteps` (the configured total step count). -/
structure MCMCOptions where
  nsteps : Nat
  deriving Repr, DecidableEq

/-- A deserialized MCMC chain-run object, as read by the report code. -/
structure MCMC where
  options : MCMCOptions
  deriving Repr, DecidableEq

/-- Modelled from the spec: `bayessb.multichain.MCMCSet` is not under `src/`
(only its caller `Report.get_results_for_chain_set` is).  Per the spec's
pooling-collaborator contract, `MCMCSet(name)` makes an empty named set and
`initialize_and_pool(mcmc_list, cutoff)` produces one pooled, pruned
chain-set from the loaded runs and the burn-in cutoff; the exact pooling
algorithm is external, so the set records its inputs. -/
structure MCMCSet where
  name : String
  chains : List MCMC
  burn : Nat
  deriving Repr, DecidableEq

/-- Modelled from the spec: the `MCMCSet(chain_list_name)` constructor. -/
def MCMCSet.new (name : String) : MCMCSet :=
  { name := name, chains := [], burn := 0 }

/-- Modelled from the spec: `MCMCSet.initialize_and_pool(mcmc_list, cutoff)`
pools the loaded runs with the given burn-in cutoff. -/
def MCMCSet.initialize_and_pool (s : MCMCSet) (mcmc_list : List MCMC)
    (cutoff : Nat) : MCMCSet :=
  { name := s.name, chains := mcmc_list, burn := cutoff }

/-! ## Result values and grid cells -/

/-- A serializable scalar produced by a reporter (`Result.value`).  The
linked-HTML renderer dispatches on the Python runtime type, so the type tag
is explicit.  Python floats are modelled as rationals. -/
inductive Value where
  | float : Rat → Value
  | bool : Bool → Value
  | int : Int → Value
  | str : String → Value
  deriving DecidableEq

/-- `pysb.report.Result`: the `(value, link)` pair a reporter returns
(`class Result` in `src/bayessb/report/__init__.py`). -/
structure Result where
  value : Value
  link : Option String
  deriving DecidableEq

/-- A cell of the results grid.  Row 0 of the pre-transpose grid holds
reporter display names (plain strings, no `value`/`link` attribute); all
other cells are `Result` objects.  The renderers distinguish the two with
`hasattr(r, 'value')` / `hasattr(result, 'link')`, which this tag models. -/
inductive Cell where
  | label : String → Cell
  | res : Result → Cell
  deriving DecidableEq

/-! ## Reporters and the registry -/

/-- A reporter function together with the `reporter_name` attribute the
decorator sets on it.  A raising reporter returns `.error`. -/
structure Reporter where
  reporter_name : String
  run : MCMCSet → Except String Result

/-- The package-level `reporter_dict`: declaring-module name mapped to the
ordered list of reporter functions declared in it. -/
abbrev Registry := List (String × List Reporter)

/-- First-match association-list lookup (Python `dict` access, as `Option`). -/
def lookupMod (reg : Registry) (m : String) : Option (List Reporter) :=
  match reg with
  | [] => none
  | (k, v) :: rest => if k = m then some v else lookupMod rest m

/-- `reporter_dict[m]`: raises `KeyError` when the module has no entry. -/
def dictGet (reg : Registry) (m : String) : Except String (List Reporter) :=
  match lookupMod reg m with
  | some v => .ok v
  | none => .error ("KeyError: " ++ m)

/-- `reporter_dict.setdefault(mod_name, []).append(f)` followed by
`f.reporter_name = name`: append the (now named) function to the module's
list, creating the list when the key is absent. -/
def registryAdd (reg : Registry) (modName : String) (f : Reporter) : Registry :=
  match reg with
  | [] => [(modName, [f])]
  | (k, v) :: rest =>
    if k = modName then (k, v ++ [f]) :: rest
    else (k, v) :: registryAdd rest modName f

/-- The argument passed to the `reporter` decorator: either the required
name string, or a callable (the decorator used without a name argument). -/
inductive NameArg where
  | str : String → NameArg
  | callable : (MCMCSet → Except String Result) → NameArg

/-- The inner `wrap(f)` closure of the decorator: records the function in
`reporter_dict` under its declaring module's name, tags it with the display
name, and returns it.  `modName` stands for `inspect.getmodule(f).__name__`. -/
def wrapReporter (name : String) (modName : String)
    (f : MCMCSet → Except String Result) (reg : Registry) :
    Registry × Reporter :=
  let tagged : Reporter := { reporter_name := name, run := f }
  (registryAdd reg modName tagged, tagged)

/-- The `reporter` decorator (`def reporter(name)`), returning either the
`TypeError` it raises when `name` is callable, or the `wrap` closure. -/
def reporterDecorator (name : NameArg) :
    Except String (String → (MCMCSet → Except String Result) → Registry →
      Registry × Reporter) :=
  match name with
  | .callable _ => .error "The reporter decorator requires a name argument."
  | .str s => .ok (fun modName f reg => wrapReporter s modName f reg)

/-! ## Report construction -/

/-- A Python `for` loop appending `f x` for each `x`, with an exception
(`Except.error`) aborting the whole loop: the effectful list map used for
loading chain files, evaluating reporters, and processing groups. -/
def mapExcept (f : α → Except String β) : List α → Except String (List β)
  | [] => .ok []
  | x :: xs =>
    match f x with
    | .error e => .error e
    | .ok y =>
      match mapExcept f xs with
      | .error e => .error e
      | .ok ys => .ok (y :: ys)

/-- Python `l[0]`: the first element, or an `IndexError` on an empty list. -/
def pyIndex0 (l : List α) : Except String α :=
  match l with
  | [] => .error "IndexError: list index out of range"
  | x :: _ => .ok x

/-- Python 2 floor division truncates integer division; `nsteps` is a
nonnegative step count so `Nat` division matches `nsteps / 2`. -/
def halfSteps (m : MCMC) : Nat :=
  m.options.nsteps / 2

/-- The item elements of the `reporters` constructor argument: either a
reporter function or a whole reporter-declaring module (identified by its
`__name__`). -/
inductive ReporterItem where
  | fn : Reporter → ReporterItem
  | mod : String → ReporterItem

/-- The module-unpacking loop of `Report.__init__`: a module element is
replaced in place by `reporter_dict[module.__name__]` (a `KeyError` when
absent), a plain reporter is appended unchanged. -/
def expandReporters (reg : Registry) : List ReporterItem →
    Except String (List Reporter)
  | [] => .ok []
  | item :: rest => do
    let hd ← match item with
      | .mod m => dictGet reg m
      | .fn r => pure [r]
    let tl ← expandReporters reg rest
    pure (hd ++ tl)

/-- The chain-loading and pooling half of `get_results_for_chain_set`:
unpickle every file of the group (`load` is the environment mapping a
filename to the deserialized chain or to the I/O / unpickling error), then
`mcmc_set.initialize_and_pool(mcmc_list, mcmc_list[0].options.nsteps / 2)`. -/
def get_mcmc_set (load : String → Except String MCMC) (chain_list_name : String)
    (chain_list : List String) : Except String MCMCSet := do
  let mcmc_list ← mapExcept load chain_list
  let first ← pyIndex0 mcmc_list
  pure ((MCMCSet.new chain_list_name).initialize_and_pool mcmc_list
    (halfSteps first))

/-- `Report.get_results_for_chain_set`: pool the group's chains, then run
every reporter against the pooled set, collecting one `Result` each; any
failure propagates. -/
def get_results_for_chain_set (load : String → Except String MCMC)
    (reporters : List Reporter) (chain_list_name : String)
    (chain_list : List String) : Except String (List Result) := do
  let mcmc_set ← get_mcmc_set load chain_list_name chain_list
  mapExcept (fun r => r.run mcmc_set) reporters

/-- Python 2's `zip(*rows)`: the transpose truncated to the shortest row
(`zip()` of no arguments is empty). -/
def minLen : List (List α) → Nat
  | [] => 0
  | r :: rs => rs.foldl (fun m l => min m l.length) r.length

/-- `zip(*rows)` itself: output row `i` collects entry `i` of every input
row, for `i` below every input row's length. -/
def pyZip (rows : List (List α)) : List (List α) :=
  (List.range (minLen rows)).map (fun i => rows.filterMap (fun r => r[i]?))

/-- The state of a constructed `Report` object. -/
structure Report where
  chain_filenames : List (String × List String)
  reporters : List Reporter
  names : List String
  header_names : List String
  results : List (List Cell)

/-- `Report.__init__`: expand modules into reporters, default the column
names to the group names, run every reporter on every group (each group
row is appended after the row of reporter display names), and transpose
the collection with `zip(*self.results)` into reporter-major rows.
`chain_filenames` is the `dict` in its iteration order. -/
def Report.init (reg : Registry) (load : String → Except String MCMC)
    (chain_filenames : List (String × List String))
    (reporterItems : List ReporterItem) (names : Option (List String)) :
    Except String Report := do
  let reps ← expandReporters reg reporterItems
  let nms := names.getD (chain_filenames.map Prod.fst)
  let header_names := "" :: nms
  let reporter_names := reps.map (fun r => Cell.label r.reporter_name)
  let groupRows ← mapExcept (fun g =>
    (get_results_for_chain_set load reps g.1 g.2).map (List.map Cell.res))
    chain_filenames
  pure { chain_filenames := chain_filenames, reporters := reps, names := nms,
         header_names := header_names,
         results := pyZip (reporter_names :: groupRows) }

/-! ## Value formatting -/

/-- Base-10 digit list of a natural number (most significant first). -/
def natToDecDigits (n : Nat) : List Char :=
  if _h : n < 10 then [Nat.digitChar n]
  else natToDecDigits (n / 10) ++ [Nat.digitChar (n % 10)]
termination_by n
decreasing_by exact Nat.div_lt_self (by omega) (by omega)

/-- Decimal rendering of a natural number. -/
def natToDec (n : Nat) : String :=
  ⟨natToDecDigits n⟩

/-- Decimal rendering of an integer. -/
def intToDec (i : Int) : String :=
  (if i < 0 then "-" else "") ++ natToDec i.natAbs

/-- Python `str()` on a reporter value: `str(True) = "True"`,
`str(False) = "False"`, integers and strings render in the obvious way;
the float case models default float printing as the exact rational. -/
def pyStr : Value → String
  | .float q => intToDec q.num ++ "/" ++ natToDec q.den
  | .bool b => if b then "True" else "False"
  | .int i => intToDec i
  | .str s => s

/-- The rounding step of C `%.2f`: the value in hundredths, rounded to the
nearest integer with ties away from zero. -/
def pyRound2 (q : Rat) : Int :=
  if 0 ≤ q then (q * 100 + 1 / 2).floor else -((-q) * 100 + 1 / 2).floor

/-- The two digits after the decimal point, `fp < 100`. -/
def twoFracDigits (fp : Nat) : List Char :=
  [Nat.digitChar (fp / 10), Nat.digitChar (fp % 10)]

/-- Python `'%-.2f' % q` (the `-` flag is inert without a field width):
the value rounded to hundredths and printed with exactly two digits after
the decimal point. -/
def format2f (q : Rat) : String :=
  let n := pyRound2 q
  let sgn := if n < 0 then "-" else ""
  let m := n.natAbs
  sgn ++ natToDec (m / 100) ++ "." ++ ⟨twoFracDigits (m % 100)⟩

/-! ## Renderers

Each renderer is a read-only view: it is embedded as a function from the
`Report` to the data handed to the output collaborator, paired with the
post-call `Report` state (the Python methods assign to no attribute, so
the post-state is the receiver itself). -/

/-- An entry handed to the `Texttable` collaborator: either a raw reporter
value or a raw header-label string. -/
inductive TextEntry where
  | val : Value → TextEntry
  | raw : String → TextEntry
  deriving DecidableEq

/-- The cell translation of `get_text_table`:
`r.value if hasattr(r, 'value') else r`. -/
def textCellEntry : Cell → TextEntry
  | .res r => .val r.value
  | .label s => .raw s

/-- `Report.get_text_table(max_width)`: hand the `Texttable` collaborator
the width bound, the header names, and the grid with each `Result` cell
replaced by its bare value. -/
def get_text_table (rpt : Report) (max_width : Nat := 80) :
    (Nat × List String × List (List TextEntry)) × Report :=
  ((max_width, rpt.header_names,
    rpt.results.map (fun row => row.map textCellEntry)), rpt)

/-- `Report.write_pdf_table`: the rows are handed to the `TableFactory`
collaborator untransformed, with the header names. -/
def write_pdf_table (rpt : Report) :
    (List String × List (List Cell)) × Report :=
  ((rpt.header_names, rpt.results), rpt)

/-- An entry handed to a `TableFactory` cell: either a raw value or a
string (anchor markup, or a header label). -/
inductive TFEntry where
  | val : Value → TFEntry
  | str : String → TFEntry
  deriving DecidableEq

/-- The cell translation of `write_html_table`: a linkless `Result` passes
its raw value, a linked one becomes anchor markup around `str(value)`
(which the collaborator later escapes), a header label passes through. -/
def htmlTableEntry : Cell → TFEntry
  | .res r =>
    match r.link with
    | none => .val r.value
    | some l => .str ("<a href=\x27" ++ l ++ "\x27>" ++ pyStr r.value ++ "</a>")
  | .label s => .str s

/-- `Report.write_html_table`: translated rows plus header names, handed
to the `TableFactory` HTML collaborator. -/
def write_html_table (rpt : Report) :
    (List String × List (List TFEntry)) × Report :=
  ((rpt.header_names,
    rpt.results.map (fun row => row.map htmlTableEntry)), rpt)

/-- The value formatting of `write_html_table_with_links`: floats through
`%-.2f`, booleans as the literals `True`/`False`, everything else through
`str()`. -/
def formatValueLinked : Value → String
  | .float q => format2f q
  | .bool b => if b then "True" else "False"
  | v => pyStr v

/-- The cell translation of `write_html_table_with_links`: format the
value, wrap it in an anchor exactly when the link is present; a header
label renders as `str(result)`. -/
def linkedCellStr : Cell → String
  | .res r =>
    let result_str := formatValueLinked r.value
    match r.link with
    | none => result_str
    | some l => "<a href=\x27" ++ l ++ "\x27>" ++ result_str ++ "</a>"
  | .label s => s

/-- `Report.write_html_table_with_links`: the hand-built HTML document. -/
def write_html_table_with_links (rpt : Report) : String × Report :=
  let doc := "<html><head>"
    ++ "<style type=\"text/css\"><!-- "
    ++ "BODY \x7b font-family: sans-serif; \x7d --></style><body>"
    ++ "<table border=1>"
    ++ ("<tr><td>" ++ String.intercalate "</td><td>" rpt.header_names
        ++ "</td></tr>")
    ++ String.join (rpt.results.map (fun row =>
        "<tr><td>" ++ String.intercalate "</td><td>" (row.map linkedCellStr)
        ++ "</td></tr>"))
    ++ "</table>"
    ++ "</body></html>"
  (doc, rpt)

/-! ## Concrete instances (used to evaluate the pipeline on sample data) -/

/-- The `num_chains` reporter of `src/bayessb/report.py`:
`Result(len(mcmc_set.chains), None)`. -/
def num_chains : MCMCSet → Except String Result :=
  fun mcmc_set => .ok { value := .int mcmc_set.chains.length, link := none }

/-- The `num_chains` function tagged by `@reporter('Number of chains')`. -/
def numChainsReporter : Reporter :=
  { reporter_name := "Number of chains", run := num_chains }

/-- A reporter that always raises. -/
def raisingReporter : Reporter :=
  { reporter_name := "Broken",
    run := fun _ => .error "ValueError: reporter failed" }

/-- A sample ten-step chain-run object. -/
def sampleMCMC : MCMC :=
  { options := { nsteps := 10 } }

/-- A load environment where every chain file unpickles to `sampleMCMC`. -/
def loadOK : String → Except String MCMC :=
  fun _ => .ok sampleMCMC

/-- A load environment where every chain file is missing. -/
def loadFail : String → Except String MCMC :=
  fun f => .error ("IOError: No such file or directory: " ++ f)

/-- A sample registry holding the one reporter of module `bayessb.report`. -/
def sampleRegistry : Registry :=
  [("bayessb.report", [numChainsReporter])]

/-- Sample group mapping: two groups of chain files. -/
def sampleGroups : List (String × List String) :=
  [("A", ["f1.mcmc", "f2.mcmc"]), ("B", ["f3.mcmc"])]

/-- The pooled chain-set obtained for group `A` under `loadOK`. -/
def pooledA : MCMCSet :=
  { name := "A", chains := [sampleMCMC, sampleMCMC], burn := 5 }

/-- A sample constructed report state. -/
def sampleReportA : Report :=
  { chain_filenames := sampleGroups, reporters := [numChainsReporter],
    names := ["A", "B"], header_names := ["", "A", "B"],
    results := [[.label "Number of chains", .res { value := .int 2, link := none },
                 .res { value := .int 1, link := none }]] }

/-- The same grid and headers as `sampleReportA` with different
chain-filename and reporter state. -/
def sampleReportB : Report :=
  { chain_filenames := [], reporters := [],
    names := ["A", "B"], header_names := ["", "A", "B"],
    results := [[.label "Number of chains", .res { value := .int 2, link := none },
                 .res { value := .int 1, link := none }]] }

/-! ## Helper lemmas -/

theorem mapExcept_ok_length {f : α → Except String β} :
    ∀ {l : List α} {ys : List β}, mapExcept f l = .ok ys →
      ys.length = l.length := by
  intro l
  induction l with
  | nil => intro ys h; simp only [mapExcept, Except.ok.injEq] at h; simp [← h]
  | cons x xs ih =>
    intro ys h
    simp only [mapExcept] at h
    cases hx : f x with
    | error e => rw [hx] at h; exact absurd h (by simp)
    | ok y =>
      rw [hx] at h
      cases hxs : mapExcept f xs with
      | error e => rw [hxs] at h; exact absurd h (by simp)
      | ok ys' =>
        rw [hxs] at h
        simp only [Except.ok.injEq] at h
        subst h
        simp [ih hxs]

theorem mapExcept_ok_get {f : α → Except String β} :
    ∀ {l : List α} {ys : List β}, mapExcept f l = .ok ys →
      ∀ {i : Nat} {x : α}, l[i]? = some x →
        ∃ y, ys[i]? = some y ∧ f x = .ok y := by
  intro l
  induction l with
  | nil => intro ys _ i x hx; simp at hx
  | cons a xs ih =>
    intro ys h i x hx
    simp only [mapExcept] at h
    cases ha : f a with
    | error e => rw [ha] at h; exact absurd h (by simp)
    | ok y =>
      rw [ha] at h
      cases hxs : mapExcept f xs with
      | error e => rw [hxs] at h; exact absurd h (by simp)
      | ok ys' =>
        rw [hxs] at h
        simp only [Except.ok.injEq] at h
        subst h
        cases i with
        | zero =>
          simp only [List.getElem?_cons_zero, Option.some.injEq] at hx
          subst hx
          exact ⟨y, by simp, ha⟩
        | succ j =>
          simp only [List.getElem?_cons_succ] at hx ⊢
          exact ih hxs hx

theorem mapExcept_ok_mem {f : α → Except String β} :
    ∀ {l : List α} {ys : List β}, mapExcept f l = .ok ys →
      ∀ y ∈ ys, ∃ x ∈ l, f x = .ok y := by
  intro l
  induction l with
  | nil =>
    intro ys h y hy
    simp only [mapExcept, Except.ok.injEq] at h
    subst h; simp at hy
  | cons a xs ih =>
    intro ys h y hy
    simp only [mapExcept] at h
    cases ha : f a with
    | error e => rw [ha] at h; exact absurd h (by simp)
    | ok y' =>
      rw [ha] at h
      cases hxs : mapExcept f xs with
      | error e => rw [hxs] at h; exact absurd h (by simp)
      | ok ys' =>
        rw [hxs] at h
        simp only [Except.ok.injEq] at h
        subst h
        rcases hy with _ | hy
        · exact ⟨a, List.mem_cons_self a xs, ha⟩
        · obtain ⟨x, hx, hfx⟩ := ih hxs y (by assumption)
          exact ⟨x, List.mem_cons_of_mem a hx, hfx⟩

theorem mapExcept_mem_ok {f : α → Except String β} :
    ∀ {l : List α} {ys : List β}, mapExcept f l = .ok ys →
      ∀ x ∈ l, ∃ y ∈ ys, f x = .ok y := by
  intro l
  induction l with
  | nil => intro ys _ x hx; simp at hx
  | cons a xs ih =>
    intro ys h x hx
    simp only [mapExcept] at h
    cases ha : f a with
    | error e => rw [ha] at h; exact absurd h (by simp)
    | ok y' =>
      rw [ha] at h
      cases hxs : mapExcept f xs with
      | error e => rw [hxs] at h; exact absurd h (by simp)
      | ok ys' =>
        rw [hxs] at h
        simp only [Except.ok.injEq] at h
        subst h
        rcases hx with _ | hx
        · exact ⟨y', List.mem_cons_self y' ys', ha⟩
        · obtain ⟨y, hy, hfy⟩ := ih hxs x (by assumption)
          exact ⟨y, List.mem_cons_of_mem y' hy, hfy⟩

theorem mapExcept_error_of_mem {f : α → Except String β} {l : List α} {x : α}
    {e : String} (hx : x ∈ l) (hfx : f x = .error e) :
    ∃ e', mapExcept f l = .error e' := by
  induction l with
  | nil => simp at hx
  | cons a xs ih =>
    rcases hx with _ | hx
    · refine ⟨e, ?_⟩
      simp only [mapExcept]
      rw [hfx]
    · obtain ⟨e', he'⟩ := ih (by assumption)
      simp only [mapExcept]
      cases ha : f a with
      | error e0 => exact ⟨e0, rfl⟩
      | ok y => rw [he']; exact ⟨e', rfl⟩

theorem lookupMod_registryAdd_self (reg : Registry) (m : String) (f : Reporter) :
    (lookupMod (registryAdd reg m f) m).getD [] =
      (lookupMod reg m).getD [] ++ [f] := by
  induction reg with
  | nil => simp [registryAdd, lookupMod]
  | cons p rest ih =>
    obtain ⟨k, v⟩ := p
    by_cases hk : k = m
    · subst hk
      simp [registryAdd, lookupMod]
    · simp only [registryAdd, lookupMod, if_neg hk]
      exact ih

theorem lookupMod_registryAdd_other (reg : Registry) (m m' : String)
    (f : Reporter) (hne : m' ≠ m) :
    lookupMod (registryAdd reg m f) m' = lookupMod reg m' := by
  induction reg with
  | nil =>
    have : ¬ m = m' := fun h => hne h.symm
    simp [registryAdd, lookupMod, this]
  | cons p rest ih =>
    obtain ⟨k, v⟩ := p
    by_cases hk : k = m
    · subst hk
      have hk' : k ≠ m' := fun h => hne h.symm
      simp [registryAdd, lookupMod, hk']
    · simp only [registryAdd, lookupMod, if_neg hk]
      by_cases hk' : k = m'
      · simp [hk']
      · simp only [if_neg hk']
        exact ih

theorem minLen_of_const {rows : List (List α)} {n : Nat}
    (hne : rows ≠ []) (hlen : ∀ r ∈ rows, r.length = n) :
    minLen rows = n := by
  have aux : ∀ (rs : List (List α)), (∀ l ∈ rs, l.length = n) →
      rs.foldl (fun m l => min m l.length) n = n := by
    intro rs
    induction rs with
    | nil => intro _; rfl
    | cons l ls ih =>
      intro h
      have hl : l.length = n := h l (List.mem_cons_self l ls)
      simp only [List.foldl_cons, hl, min_self]
      exact ih (fun l' hl' => h l' (List.mem_cons_of_mem l hl'))
  cases rows with
  | nil => exact absurd rfl hne
  | cons r rs =>
    have hr : r.length = n := hlen r (List.mem_cons_self r rs)
    simp only [minLen, hr]
    exact aux rs (fun l hl => hlen l (List.mem_cons_of_mem r hl))

theorem pyZip_length (rows : List (List α)) :
    (pyZip rows).length = minLen rows := by
  simp [pyZip]

theorem pyZip_getElem {rows : List (List α)} {i : Nat}
    (hi : i < minLen rows) :
    (pyZip rows)[i]? = some (rows.filterMap (fun r => r[i]?)) := by
  simp [pyZip, List.getElem?_map, List.getElem?_range, hi]

theorem filterMap_getElem_of_isSome {g : α → Option β} :
    ∀ {l : List α}, (∀ x ∈ l, (g x).isSome) →
      ∀ {j : Nat} {x : α}, l[j]? = some x → (l.filterMap g)[j]? = g x := by
  intro l
  induction l with
  | nil => intro _ j x hj; simp at hj
  | cons a xs ih =>
    intro hall j x hj
    have ha : (g a).isSome := hall a (List.mem_cons_self a xs)
    obtain ⟨y, hy⟩ := Option.isSome_iff_exists.mp ha
    rw [List.filterMap_cons_some hy]
    cases j with
    | zero =>
      simp only [List.getElem?_cons_zero, Option.some.injEq] at hj
      subst hj
      simp [hy]
    | succ j' =>
      simp only [List.getElem?_cons_succ] at hj ⊢
      exact ih (fun x hx => hall x (List.mem_cons_of_mem a hx)) hj

theorem filterMap_length_of_isSome {g : α → Option β} :
    ∀ {l : List α}, (∀ x ∈ l, (g x).isSome) →
      (l.filterMap g).length = l.length := by
  intro l
  induction l with
  | nil => intro _; rfl
  | cons a xs ih =>
    intro hall
    obtain ⟨y, hy⟩ := Option.isSome_iff_exists.mp
      (hall a (List.mem_cons_self a xs))
    rw [List.filterMap_cons_some hy]
    simp only [List.length_cons]
    rw [ih (fun x hx => hall x (List.mem_cons_of_mem a hx))]

theorem natToDecDigits_isDigit : ∀ n : Nat, ∀ c ∈ natToDecDigits n,
    c.isDigit = true := by
  intro n
  induction n using Nat.strong_induction_on with
  | _ n ih =>
    intro c hc
    by_cases h : n < 10
    · rw [natToDecDigits, dif_pos h] at hc
      simp only [List.mem_singleton] at hc
      subst hc
      revert h
      exact fun h => (by decide : ∀ d < 10, (Nat.digitChar d).isDigit = true) n h
    · rw [natToDecDigits, dif_neg h] at hc
      rcases List.mem_append.mp hc with hc' | hc'
      · exact ih (n / 10) (Nat.div_lt_self (by omega) (by omega)) c hc'
      · simp only [List.mem_singleton] at hc'
        subst hc'
        exact (by decide : ∀ d < 10, (Nat.digitChar d).isDigit = true)
          (n % 10) (Nat.mod_lt n (by omega))

theorem get_results_ok_length {load : String → Except String MCMC}
    {reporters : List Reporter} {nm : String} {files : List String}
    {rs : List Result}
    (h : get_results_for_chain_set load reporters nm files = .ok rs) :
    rs.length = reporters.length := by
  simp only [get_results_for_chain_set, bind, Except.bind] at h
  cases hs : get_mcmc_set load nm files with
  | error e => rw [hs] at h; exact absurd h (by simp)
  | ok s =>
    rw [hs] at h
    exact mapExcept_ok_length h

theorem digitChar_isDigit : ∀ d : Nat, d < 10 →
    (Nat.digitChar d).isDigit = true := by
  decide

theorem format2f_decomp (q : Rat) :
    ∃ (pre : String) (d1 d2 : Char),
      format2f q = pre ++ "." ++ ⟨[d1, d2]⟩ ∧
      d1.isDigit = true ∧ d2.isDigit = true ∧ '.' ∉ pre.data := by
  refine ⟨(if pyRound2 q < 0 then "-" else "")
      ++ natToDec ((pyRound2 q).natAbs / 100),
    Nat.digitChar ((pyRound2 q).natAbs % 100 / 10),
    Nat.digitChar ((pyRound2 q).natAbs % 100 % 10), rfl, ?_, ?_, ?_⟩
  · exact digitChar_isDigit _ (by omega)
  · exact digitChar_isDigit _ (Nat.mod_lt _ (by omega))
  · intro hdot
    rw [String.data_append] at hdot
    rcases List.mem_append.mp hdot with hd | hd
    · by_cases hneg : pyRound2 q < 0
      · rw [if_pos hneg] at hd
        simp at hd
      · rw [if_neg hneg] at hd
        simp at hd
    · have : ('.').isDigit = true :=
        natToDecDigits_isDigit _ _ hd
      simp at this

theorem dictGet_ok {reg : Registry} {m : String} {l : List Reporter}
    (h : dictGet reg m = .ok l) : lookupMod reg m = some l := by
  unfold dictGet at h
  cases hm : lookupMod reg m with
  | none => rw [hm] at h; exact absurd h (by simp)
  | some v =>
    rw [hm] at h
    simp only [Except.ok.injEq] at h
    rw [h]

theorem get_mcmc_set_ok_ne_nil {load : String → Except String MCMC}
    {name : String} {files : List String} {s : MCMCSet}
    (h : get_mcmc_set load name files = .ok s) : files ≠ [] := by
  intro hnil
  subst hnil
  exact absurd h (by simp [get_mcmc_set, bind, Except.bind, mapExcept, pyIndex0])

theorem report_init_ok_inv {reg : Registry} {load : String → Except String MCMC}
    {cf : List (String × List String)} {items : List ReporterItem}
    {nms : Option (List String)} {rpt : Report}
    (h : Report.init reg load cf items nms = .ok rpt) :
    ∃ (reps : List Reporter) (groupRows : List (List Cell)),
      expandReporters reg items = .ok reps ∧
      mapExcept (fun p => (get_results_for_chain_set load reps p.1 p.2).map
        (List.map Cell.res)) cf = .ok groupRows ∧
      rpt = { chain_filenames := cf, reporters := reps,
              names := nms.getD (cf.map Prod.fst),
              header_names := "" :: nms.getD (cf.map Prod.fst),
              results := pyZip ((reps.map fun r =>
                Cell.label r.reporter_name) :: groupRows) } := by
  simp only [Report.init, bind, Except.bind] at h
  cases hexp : expandReporters reg items with
  | error e => rw [hexp] at h; exact absurd h (by simp)
  | ok reps =>
    rw [hexp] at h
    dsimp only at h
    cases hrows : mapExcept (fun p =>
        (get_results_for_chain_set load reps p.1 p.2).map
          (List.map Cell.res)) cf with
    | error e => rw [hrows] at h; exact absurd h (by simp)
    | ok groupRows =>
      rw [hrows] at h
      simp only [pure, Except.pure, Except.ok.injEq] at h
      exact ⟨reps, groupRows, rfl, hrows, h.symm⟩

/-! ## Claim theorems -/

/-- C5: invoking the reporter registration decorator with a callable in
place of the required name string fails immediately with the
configuration `TypeError`; no wrap closure is produced and the registry
is untouched (the decorator returns before it can record anything). -/
theorem c5_decorator_callable_name_fails :
    ∀ f : MCMCSet → Except String Result,
      reporterDecorator (.callable f) =
        .error "The reporter decorator requires a name argument." := by
  intro f
  rfl

/-- C6: the reporter registry is append-only: declaring a reporter appends
the tagged function to the list recorded under its declaring module
(creating the list when absent, never removing or replacing an entry, so
declaration order is preserved and re-declaration appends), and every
other module entry is unchanged. -/
theorem c6_registry_append_only :
    ∀ (reg : Registry) (name modName : String)
      (f : MCMCSet → Except String Result),
      (lookupMod (wrapReporter name modName f reg).1 modName).getD [] =
        (lookupMod reg modName).getD []
          ++ [(wrapReporter name modName f reg).2] ∧
      ∀ m, m ≠ modName →
        lookupMod (wrapReporter name modName f reg).1 m = lookupMod reg m := by
  intro reg name modName f
  constructor
  · exact lookupMod_registryAdd_self reg modName _
  · intro m hm
    exact lookupMod_registryAdd_other reg modName m _ hm

/-- C6 witness: registering `num_chains` under `bayessb.report` in the
empty registry records exactly it there and leaves another module
unaffected. -/
theorem c6_registry_append_only_witness :
    (lookupMod (wrapReporter "Number of chains" "bayessb.report"
        num_chains []).1 "bayessb.report").getD [] =
      (lookupMod [] "bayessb.report").getD []
        ++ [(wrapReporter "Number of chains" "bayessb.report"
              num_chains []).2] ∧
    lookupMod (wrapReporter "Number of chains" "bayessb.report"
        num_chains []).1 "other.module" = lookupMod [] "other.module" := by
  obtain ⟨h1, h2⟩ :=
    c6_registry_append_only [] "Number of chains" "bayessb.report" num_chains
  exact ⟨h1, h2 "other.module" (by decide)⟩

/-- C4: in the linked-HTML rendering a float value is printed with exactly
two digits after the (unique) decimal point, a boolean as the literal
`True`/`False`, every other value through default string conversion; the
formatted text is wrapped in an anchor exactly when the link is present,
and header labels render by default string conversion. -/
theorem c4_linked_html_cell_format :
    (∀ q : Rat, ∃ (pre : String) (d1 d2 : Char),
        formatValueLinked (.float q) = pre ++ "." ++ ⟨[d1, d2]⟩ ∧
        d1.isDigit = true ∧ d2.isDigit = true ∧ '.' ∉ pre.data) ∧
    (formatValueLinked (.bool true) = "True" ∧
      formatValueLinked (.bool false) = "False") ∧
    (∀ i : Int, formatValueLinked (.int i) = pyStr (.int i)) ∧
    (∀ s : String, formatValueLinked (.str s) = pyStr (.str s)) ∧
    (∀ (v : Value) (l : String),
        linkedCellStr (.res { value := v, link := some l }) =
          "<a href=\x27" ++ l ++ "\x27>" ++ formatValueLinked v ++ "</a>") ∧
    (∀ v : Value,
        linkedCellStr (.res { value := v, link := none }) =
          formatValueLinked v) ∧
    (∀ s : String, linkedCellStr (.label s) = s) := by
  refine ⟨fun q => format2f_decomp q, ⟨rfl, rfl⟩, fun i => rfl, fun s => rfl,
    fun v l => rfl, fun v => rfl, fun s => rfl⟩

/-- C8: in the text rendering every Result cell contributes exactly its
value (the link field is never shown) and every non-Result cell
contributes the raw header label. -/
theorem c8_text_rendering_values :
    ∀ (rpt : Report) (max_width : Nat),
      (get_text_table rpt max_width).1.2.2 =
        rpt.results.map (fun row => row.map textCellEntry) ∧
      (∀ (v : Value) (l : Option String),
        textCellEntry (.res { value := v, link := l }) = .val v) ∧
      (∀ s : String, textCellEntry (.label s) = .raw s) := by
  intro rpt w
  exact ⟨rfl, fun v l => rfl, fun s => rfl⟩

/-- C9: every rendering operation returns the Report state unchanged, and
its output is a function of the results grid and header names alone (in
particular no rendering reads the chain-filename mapping, the reporter
list, or any chain-set data). -/
theorem c9_renderers_read_only :
    ∀ rpt : Report,
      ((∀ w, (get_text_table rpt w).2 = rpt) ∧
        (write_pdf_table rpt).2 = rpt ∧
        (write_html_table rpt).2 = rpt ∧
        (write_html_table_with_links rpt).2 = rpt) ∧
      ∀ rpt' : Report, rpt.results = rpt'.results →
        rpt.header_names = rpt'.header_names →
        (∀ w, (get_text_table rpt w).1 = (get_text_table rpt' w).1) ∧
        (write_pdf_table rpt).1 = (write_pdf_table rpt').1 ∧
        (write_html_table rpt).1 = (write_html_table rpt').1 ∧
        (write_html_table_with_links rpt).1 =
          (write_html_table_with_links rpt').1 := by
  intro rpt
  refine ⟨⟨fun w => rfl, rfl, rfl, rfl⟩, ?_⟩
  intro rpt' hres hhdr
  refine ⟨fun w => ?_, ?_, ?_, ?_⟩ <;>
    simp only [get_text_table, write_pdf_table, write_html_table,
      write_html_table_with_links, hres, hhdr]

/-- C9 witness: on two sample reports sharing grid and headers but
differing in chain-filename and reporter state, rendering leaves the state
alone and the linked-HTML outputs agree. -/
theorem c9_renderers_read_only_witness :
    (get_text_table sampleReportA 80).2 = sampleReportA ∧
    (write_html_table_with_links sampleReportA).1 =
      (write_html_table_with_links sampleReportB).1 := by
  obtain ⟨h1, h2⟩ := c9_renderers_read_only sampleReportA
  exact ⟨h1.1 80, (h2 sampleReportB rfl rfl).2.2.2⟩

/-- C2: a successful reporter-list expansion replaces every module element
in place by exactly the ordered list the registry records for that module
(and nothing from any other module) and passes every plain reporter
through unchanged, in first-seen input order. -/
theorem c2_module_expansion :
    ∀ (reg : Registry) (items : List ReporterItem) (reps : List Reporter),
      expandReporters reg items = .ok reps →
      reps = items.flatMap (fun it =>
        match it with
        | .fn r => [r]
        | .mod m => (lookupMod reg m).getD []) := by
  intro reg items
  induction items with
  | nil =>
    intro reps h
    simp only [expandReporters, Except.ok.injEq] at h
    simp [← h]
  | cons it rest ih =>
    intro reps h
    cases it with
    | fn r =>
      simp only [expandReporters, bind, Except.bind, pure, Except.pure] at h
      cases hrest : expandReporters reg rest with
      | error e => rw [hrest] at h; exact absurd h (by simp)
      | ok tl =>
        rw [hrest] at h
        simp only [Except.ok.injEq] at h
        subst h
        rw [List.flatMap_cons, ih tl hrest]
    | mod m =>
      simp only [expandReporters, bind, Except.bind, pure, Except.pure] at h
      cases hm : dictGet reg m with
      | error e => rw [hm] at h; exact absurd h (by simp)
      | ok l =>
        rw [hm] at h
        cases hrest : expandReporters reg rest with
        | error e => rw [hrest] at h; exact absurd h (by simp)
        | ok tl =>
          rw [hrest] at h
          simp only [Except.ok.injEq] at h
          subst h
          rw [List.flatMap_cons, ih tl hrest]
          show l ++ _ = (lookupMod reg m).getD [] ++ _
          rw [dictGet_ok hm]
          rfl

/-- C2 witness: expanding a plain reporter, a registered module, and a
second plain reporter yields exactly the pass-through reporters around
the module's recorded list. -/
theorem c2_module_expansion_witness :
    [raisingReporter, numChainsReporter, raisingReporter] =
      ([ReporterItem.fn raisingReporter,
        ReporterItem.mod "bayessb.report",
        ReporterItem.fn raisingReporter].flatMap (fun it =>
          match it with
          | .fn r => [r]
          | .mod m => (lookupMod sampleRegistry m).getD [])) := by
  exact c2_module_expansion sampleRegistry
    [ReporterItem.fn raisingReporter, ReporterItem.mod "bayessb.report",
      ReporterItem.fn raisingReporter]
    [raisingReporter, numChainsReporter, raisingReporter] rfl

/-- C7: when a group's chain files load successfully, the pooled chain-set
handed to the reporters is built by `initialize_and_pool` with the loaded
runs and a burn-in cutoff of exactly half of the first loaded run's
configured total step count. -/
theorem c7_burn_in_half_first_nsteps :
    ∀ (load : String → Except String MCMC) (name : String)
      (files : List String) (s : MCMCSet),
      get_mcmc_set load name files = .ok s →
      ∃ (ms : List MCMC) (first : MCMC),
        mapExcept load files = .ok ms ∧ ms.head? = some first ∧
        s = (MCMCSet.new name).initialize_and_pool ms
          (first.options.nsteps / 2) ∧
        s.burn = first.options.nsteps / 2 := by
  intro load name files s h
  simp only [get_mcmc_set, bind, Except.bind] at h
  cases hms : mapExcept load files with
  | error e => rw [hms] at h; exact absurd h (by simp)
  | ok ms =>
    rw [hms] at h
    cases ms with
    | nil => exact absurd h (by simp [pyIndex0])
    | cons first rest =>
      simp only [pyIndex0, pure, Except.pure, Except.ok.injEq] at h
      exact ⟨first :: rest, first, rfl, rfl, h.symm, by rw [← h]; rfl⟩

/-- C7 witness: pooling group `A`, whose two files both load to a ten-step
run, uses burn-in cutoff `10 / 2 = 5`. -/
theorem c7_burn_in_half_first_nsteps_witness :
    ∃ (ms : List MCMC) (first : MCMC),
      mapExcept loadOK ["f1.mcmc", "f2.mcmc"] = .ok ms ∧
      ms.head? = some first ∧
      pooledA = (MCMCSet.new "A").initialize_and_pool ms
        (first.options.nsteps / 2) ∧
      pooledA.burn = first.options.nsteps / 2 := by
  exact c7_burn_in_half_first_nsteps loadOK "A" ["f1.mcmc", "f2.mcmc"]
    pooledA rfl

/-- C10: a group whose chain-file list is empty always makes report
construction fail (the pooling step indexes the first loaded run), so
every successfully constructed report has at least one chain file in
every group of its mapping. -/
theorem c10_empty_group_fails :
    ∀ (reg : Registry) (load : String → Except String MCMC)
      (cf : List (String × List String)) (items : List ReporterItem)
      (nms : Option (List String)),
      ((∃ g ∈ cf, g.2 = []) →
        ∃ e, Report.init reg load cf items nms = .error e) ∧
      (∀ rpt, Report.init reg load cf items nms = .ok rpt →
        ∀ g ∈ rpt.chain_filenames, g.2 ≠ []) := by
  intro reg load cf items nms
  constructor
  · rintro ⟨g, hg, hempty⟩
    cases hexp : expandReporters reg items with
    | error e =>
      refine ⟨e, ?_⟩
      simp only [Report.init, bind, Except.bind]
      rw [hexp]
    | ok reps =>
      have hfg : (get_results_for_chain_set load reps g.1 g.2).map
          (List.map Cell.res) =
            .error "IndexError: list index out of range" := by
        rw [hempty]
        rfl
      obtain ⟨e', he'⟩ := mapExcept_error_of_mem
        (f := fun p => (get_results_for_chain_set load reps p.1 p.2).map
          (List.map Cell.res)) hg hfg
      refine ⟨e', ?_⟩
      simp only [Report.init, bind, Except.bind]
      rw [hexp]
      dsimp only
      rw [he']
  · intro rpt hinit g hg
    obtain ⟨reps, groupRows, hexp, hrows, hrpt⟩ := report_init_ok_inv hinit
    subst hrpt
    simp only at hg
    obtain ⟨row, _, hfg⟩ := mapExcept_mem_ok hrows g hg
    cases hres : get_results_for_chain_set load reps g.1 g.2 with
    | error e =>
      rw [hres] at hfg
      exact absurd hfg (by simp [Except.map])
    | ok rs =>
      simp only [get_results_for_chain_set, bind, Except.bind] at hres
      cases hset : get_mcmc_set load g.1 g.2 with
      | error e => rw [hset] at hres; exact absurd hres (by simp)
      | ok s => exact get_mcmc_set_ok_ne_nil hset

/-- C10 witness: a group with no chain files makes construction fail, and
the successfully constructed sample report has non-empty groups only. -/
theorem c10_empty_group_fails_witness :
    (∃ e, Report.init sampleRegistry loadOK [("A", [])]
      [ReporterItem.mod "bayessb.report"] none = .error e) ∧
    (("A", ["f1.mcmc", "f2.mcmc"]) ∈ sampleReportA.chain_filenames →
      ("A", ["f1.mcmc", "f2.mcmc"]).2 ≠ []) := by
  constructor
  · exact (c10_empty_group_fails sampleRegistry loadOK [("A", [])]
      [ReporterItem.mod "bayessb.report"] none).1
      ⟨("A", []), List.mem_singleton.mpr rfl, rfl⟩
  · exact fun hmem => (c10_empty_group_fails sampleRegistry loadOK
      sampleGroups [ReporterItem.mod "bayessb.report"] none).2
      sampleReportA rfl ("A", ["f1.mcmc", "f2.mcmc"]) hmem

/-- C3: a chain file that fails to load, or a reporter that raises on a
successfully pooled group, makes report construction abort with an error:
no partial results grid is ever produced. -/
theorem c3_failure_aborts :
    ∀ (reg : Registry) (load : String → Except String MCMC)
      (cf : List (String × List String)) (items : List ReporterItem)
      (nms : Option (List String)),
      ((∃ g ∈ cf, ∃ f ∈ g.2, ∃ e, load f = .error e) →
        ∃ e', Report.init reg load cf items nms = .error e') ∧
      (∀ reps, expandReporters reg items = .ok reps →
        (∃ g ∈ cf, ∃ s, get_mcmc_set load g.1 g.2 = .ok s ∧
          ∃ r ∈ reps, ∃ e, r.run s = .error e) →
        ∃ e', Report.init reg load cf items nms = .error e') := by
  intro reg load cf items nms
  constructor
  · rintro ⟨g, hg, f, hf, e, hload⟩
    cases hexp : expandReporters reg items with
    | error e0 =>
      refine ⟨e0, ?_⟩
      simp only [Report.init, bind, Except.bind]
      rw [hexp]
    | ok reps =>
      obtain ⟨e1, he1⟩ := mapExcept_error_of_mem hf hload
      have hset : get_mcmc_set load g.1 g.2 = .error e1 := by
        simp only [get_mcmc_set, bind, Except.bind]
        rw [he1]
      have hres : (get_results_for_chain_set load reps g.1 g.2).map
          (List.map Cell.res) = .error e1 := by
        simp only [get_results_for_chain_set, bind, Except.bind]
        rw [hset]
        rfl
      obtain ⟨e', he'⟩ := mapExcept_error_of_mem
        (f := fun p => (get_results_for_chain_set load reps p.1 p.2).map
          (List.map Cell.res)) hg hres
      refine ⟨e', ?_⟩
      simp only [Report.init, bind, Except.bind]
      rw [hexp]
      dsimp only
      rw [he']
  · rintro reps hexp ⟨g, hg, s, hset, r, hr, e, hrun⟩
    obtain ⟨e1, he1⟩ := mapExcept_error_of_mem
      (f := fun r => Reporter.run r s) hr hrun
    have hres : (get_results_for_chain_set load reps g.1 g.2).map
        (List.map Cell.res) = .error e1 := by
      simp only [get_results_for_chain_set, bind, Except.bind]
      rw [hset]
      dsimp only
      rw [he1]
      rfl
    obtain ⟨e', he'⟩ := mapExcept_error_of_mem
      (f := fun p => (get_results_for_chain_set load reps p.1 p.2).map
        (List.map Cell.res)) hg hres
    refine ⟨e', ?_⟩
    simp only [Report.init, bind, Except.bind]
    rw [hexp]
    dsimp only
    rw [he']

/-- C3 witness: with every chain file missing, construction fails; with a
reporter that raises on the loaded sample group, construction fails. -/
theorem c3_failure_aborts_witness :
    (∃ e', Report.init sampleRegistry loadFail sampleGroups
      [ReporterItem.mod "bayessb.report"] none = .error e') ∧
    (∃ e', Report.init [("bad.module", [raisingReporter])] loadOK
      sampleGroups [ReporterItem.mod "bad.module"] none = .error e') := by
  constructor
  · exact (c3_failure_aborts sampleRegistry loadFail sampleGroups
      [ReporterItem.mod "bayessb.report"] none).1
      ⟨("A", ["f1.mcmc", "f2.mcmc"]), by decide, "f1.mcmc", by decide,
        "IOError: No such file or directory: f1.mcmc", rfl⟩
  · exact (c3_failure_aborts [("bad.module", [raisingReporter])] loadOK
      sampleGroups [ReporterItem.mod "bad.module"] none).2
      [raisingReporter] rfl
      ⟨("A", ["f1.mcmc", "f2.mcmc"]), by decide, pooledA, rfl,
        raisingReporter, List.mem_singleton.mpr rfl,
        "ValueError: reporter failed", rfl⟩

/-- C1: a successfully constructed report grid has exactly one row per
reporter; every row has one label entry plus one entry per group; row `i`
begins with the display name of reporter `i`, and its remaining entries
are that reporter's Result for each group, in group order. -/
theorem c1_grid_shape :
    ∀ (reg : Registry) (load : String → Except String MCMC)
      (cf : List (String × List String)) (items : List ReporterItem)
      (nms : Option (List String)) (rpt : Report),
      Report.init reg load cf items nms = .ok rpt →
      rpt.results.length = rpt.reporters.length ∧
      (∀ row ∈ rpt.results, row.length = cf.length + 1) ∧
      (∀ (i : Nat) (r : Reporter), rpt.reporters[i]? = some r →
        ∃ row, rpt.results[i]? = some row ∧
          row[0]? = some (Cell.label r.reporter_name) ∧
          ∀ (j : Nat) (g : String × List String), cf[j]? = some g →
            ∃ (rs : List Result) (ri : Result),
              get_results_for_chain_set load rpt.reporters g.1 g.2 = .ok rs ∧
              rs[i]? = some ri ∧ row[j + 1]? = some (Cell.res ri)) := by
  intro reg load cf items nms rpt hinit
  obtain ⟨reps, groupRows, hexp, hrows, hrpt⟩ := report_init_ok_inv hinit
  subst hrpt
  dsimp only
  have hGlen : groupRows.length = cf.length := mapExcept_ok_length hrows
  have hgrlen : ∀ gr ∈ groupRows, gr.length = reps.length := by
    intro gr hgr
    obtain ⟨g, _, hok⟩ := mapExcept_ok_mem hrows gr hgr
    cases hres : get_results_for_chain_set load reps g.1 g.2 with
    | error e => rw [hres] at hok; exact absurd hok (by simp [Except.map])
    | ok rs =>
      rw [hres] at hok
      simp only [Except.map, Except.ok.injEq] at hok
      rw [← hok, List.length_map]
      exact get_results_ok_length hres
  have hall : ∀ rrow ∈ ((reps.map fun r => Cell.label r.reporter_name)
      :: groupRows), rrow.length = reps.length := by
    intro rrow hrrow
    rcases List.mem_cons.mp hrrow with hh | ht
    · rw [hh, List.length_map]
    · exact hgrlen rrow ht
  have hmin : minLen ((reps.map fun r => Cell.label r.reporter_name)
      :: groupRows) = reps.length :=
    minLen_of_const (by simp) hall
  refine ⟨?_, ?_, ?_⟩
  · rw [pyZip_length, hmin]
  · intro row hrow
    simp only [pyZip, List.mem_map, List.mem_range, hmin] at hrow
    obtain ⟨i, hi, hrow⟩ := hrow
    have hsome : ∀ rrow ∈ ((reps.map fun r => Cell.label r.reporter_name)
        :: groupRows), (rrow[i]?).isSome := by
      intro rrow hrrow
      rw [List.getElem?_eq_getElem (by rw [hall rrow hrrow]; exact hi)]
      rfl
    rw [← hrow, filterMap_length_of_isSome hsome]
    simp [hGlen]
  · intro i r hir
    have hi : i < reps.length := by
      rcases List.getElem?_eq_some.mp hir with ⟨h, _⟩
      exact h
    have hsome : ∀ rrow ∈ ((reps.map fun r => Cell.label r.reporter_name)
        :: groupRows), (rrow[i]?).isSome := by
      intro rrow hrrow
      rw [List.getElem?_eq_getElem (by rw [hall rrow hrrow]; exact hi)]
      rfl
    have hname : (reps.map fun r => Cell.label r.reporter_name)[i]? =
        some (Cell.label r.reporter_name) := by
      rw [List.getElem?_map, hir]
      rfl
    have hrowdef : ((reps.map fun r => Cell.label r.reporter_name)
          :: groupRows).filterMap (fun rrow => rrow[i]?) =
        Cell.label r.reporter_name
          :: groupRows.filterMap (fun rrow => rrow[i]?) :=
      List.filterMap_cons_some hname
    refine ⟨((reps.map fun r => Cell.label r.reporter_name)
        :: groupRows).filterMap (fun rrow => rrow[i]?), ?_, ?_, ?_⟩
    · rw [pyZip_getElem (by rw [hmin]; exact hi)]
    · rw [hrowdef]
      exact List.getElem?_cons_zero
    · intro j g hcf
      obtain ⟨gr, hgr, hok⟩ := mapExcept_ok_get hrows hcf
      cases hres : get_results_for_chain_set load reps g.1 g.2 with
      | error e => rw [hres] at hok; exact absurd hok (by simp [Except.map])
      | ok rs =>
        rw [hres] at hok
        simp only [Except.map, Except.ok.injEq] at hok
        have hrslen : rs.length = reps.length := get_results_ok_length hres
        have hri : rs[i]? = some (rs.get ⟨i, by rw [hrslen]; exact hi⟩) :=
          List.getElem?_eq_getElem (by rw [hrslen]; exact hi)
        refine ⟨rs, rs.get ⟨i, by rw [hrslen]; exact hi⟩, rfl, hri, ?_⟩
        rw [hrowdef]
        simp only [List.getElem?_cons_succ]
        have := filterMap_getElem_of_isSome
          (fun rrow hrrow => hsome rrow (List.mem_cons_of_mem _ hrrow)) hgr
        rw [this, ← hok, List.getElem?_map, hri]
        rfl

/-- C1 witness: the sample construction yields the one-reporter, two-group
grid whose single row is the reporter name followed by each group's
Result. -/
theorem c1_grid_shape_witness :
    sampleReportA.results.length = sampleReportA.reporters.length ∧
    (∃ row, sampleReportA.results[0]? = some row ∧
      row[0]? = some (Cell.label numChainsReporter.reporter_name) ∧
      ∀ (j : Nat) (g : String × List String), sampleGroups[j]? = some g →
        ∃ (rs : List Result) (ri : Result),
          get_results_for_chain_set loadOK sampleReportA.reporters
            g.1 g.2 = .ok rs ∧
          rs[0]? = some ri ∧ row[j + 1]? = some (Cell.res ri)) := by
  obtain ⟨h1, _, h3⟩ := c1_grid_shape sampleRegistry loadOK sampleGroups
    [ReporterItem.mod "bayessb.report"] none sampleReportA rfl
  exact ⟨h1, h3 0 numChainsReporter rfl⟩

end BayesSB
